import Mathlib

/-!
Shallow embedding of `src/edgar/jobs/fetch_companyfacts.py` (the resumable
bulk-fetch engine): retry/backoff, rate limiting, the per-item state ledger,
atomic file persistence, pending-work reconciliation and the orchestrator
loop.  Machine details abstracted: byte strings are `List Nat`, wall-clock
timestamps are an opaque `String` parameter `now`, Python floats are modelled
as rationals `ℚ`, and the filesystem views relevant to the program are
explicit association lists / small state records.
-/

namespace Edgar

/-! Module-level constants (fetch_companyfacts.py lines 25-30). -/

def REQUEST_TIMEOUT_SECS : Nat := 60

def MAX_RETRIES : Nat := 5

def BASE_BACKOFF_SECS : ℚ := 1

def RPS : ℚ := 2

/-- Embeds `zero_pad_cik` (line 44-45): `str(cik).zfill(10)` for a
nonnegative integer CIK. -/
def zero_pad_cik (cik : Nat) : String :=
  let s := toString cik
  String.mk (List.replicate (10 - s.length) '0') ++ s

/-- The retryable status set of line 111: `(429, 500, 502, 503, 504)`. -/
def retryable (s : Nat) : Bool :=
  s == 429 || s == 500 || s == 502 || s == 503 || s == 504

/-- Outcome of one underlying `requests.get` attempt, as seen by
`request_with_retries`: either a transport-level exception (connection
error, timeout, ...) or an HTTP response with a status and body bytes. -/
inductive AttemptResult where
  | transportFailure (msg : String)
  | response (status : Nat) (content : List Nat)
  deriving DecidableEq

/-- Observable blocking / network events of the engine: a `time.sleep`
of some duration, or one outbound HTTP GET attempt. -/
inductive Ev where
  | sleep (secs : ℚ)
  | httpGet
  deriving DecidableEq

/-- Result of `request_with_retries`: `(status, content)` returned normally,
or the `RuntimeError("Failed after ... retries: <last_exc>")` path, carrying
the stringified last cause. -/
inductive FetchResult where
  | ok (status : Nat) (content : List Nat)
  | exhausted (lastCause : String)
  deriving DecidableEq

/-- The `str(exc)` of the exception recorded for one failed attempt:
the transport message, or `"Retryable HTTP <code>"` (line 112). -/
def attemptCause : AttemptResult → String
  | .transportFailure m => m
  | .response s _ => "Retryable HTTP " ++ toString s

/-- True when the attempt outcome takes the `except` branch of the retry
loop: any transport failure, or a response whose status is retryable. -/
def isRetryableAttempt : AttemptResult → Bool
  | .transportFailure _ => true
  | .response s _ => retryable s

/-- Core of `request_with_retries` (lines 106-119).  `a` is the 0-indexed
attempt number (code's `attempt - 1`), `fuel` the remaining attempts,
`le` the current `last_exc`.  Each failed attempt sleeps
`BASE_BACKOFF_SECS * 2 ^ a` (line 116-117), including the final one;
running out of fuel raises with the last cause (line 119, where Python
renders an unset `last_exc` as `"None"`). -/
def rwrAux (env : Nat → AttemptResult) : Nat → Nat → Option String → FetchResult × List Ev
  | _, 0, le => (.exhausted (le.getD "None"), [])
  | a, fuel + 1, _ =>
    match env a with
    | .response s c =>
      if retryable s then
        ((rwrAux env (a + 1) fuel (some ("Retryable HTTP " ++ toString s))).1,
          Ev.httpGet :: Ev.sleep (BASE_BACKOFF_SECS * 2 ^ a)
            :: (rwrAux env (a + 1) fuel (some ("Retryable HTTP " ++ toString s))).2)
      else (.ok s c, [Ev.httpGet])
    | .transportFailure m =>
      ((rwrAux env (a + 1) fuel (some m)).1,
        Ev.httpGet :: Ev.sleep (BASE_BACKOFF_SECS * 2 ^ a)
          :: (rwrAux env (a + 1) fuel (some m)).2)

/-- Embeds `request_with_retries` (lines 101-119) against an environment
`env` giving the outcome of the k-th attempt.  Returns the result together
with the ordered trace of attempts and backoff sleeps. -/
def request_with_retries (env : Nat → AttemptResult) : FetchResult × List Ev :=
  rwrAux env 0 MAX_RETRIES none

/-- Number of outbound request attempts recorded in an event trace. -/
def numAttempts (evs : List Ev) : Nat :=
  (evs.filter fun e => match e with | .httpGet => true | _ => false).length

/-- The sleep durations of a trace, in order. -/
def sleepsOf (evs : List Ev) : List ℚ :=
  evs.filterMap fun e => match e with | .sleep q => some q | _ => none

/-- Total time slept over a trace. -/
def totalSlept (evs : List Ev) : ℚ :=
  (sleepsOf evs).sum

/-! Association-list maps.  Python dicts preserve insertion order and
`d[k] = v` replaces in place, which `upsertA` mirrors. -/

def lookupA {α : Type} : List (String × α) → String → Option α
  | [], _ => none
  | (k, v) :: rest, key => if k = key then some v else lookupA rest key

def upsertA {α : Type} : List (String × α) → String → α → List (String × α)
  | [], key, v => [(key, v)]
  | (k, v0) :: rest, key, v =>
    if k = key then (key, v) :: rest else (k, v0) :: upsertA rest key v

/-- One value of the `state["items"]` mapping (line 90): a status string,
an update timestamp, a byte count, and an optional error message. -/
structure LedgerEntry where
  status : String
  updated_at : String
  bytes : Nat
  error : Option String
  deriving DecidableEq

/-- The ledger's `items` mapping: canonical cik10 → entry. -/
abbrev Items : Type := List (String × LedgerEntry)

/-- The output-artifact area of the disk: cik10 → content of
`<output_root>/cik=<cik10>/companyfacts.json`, when that file exists. -/
abbrev Disk : Type := List (String × List Nat)

/-- Embeds `iter_pending_ciks` (lines 154-181), fully consumed as in
`list(iter_pending_ciks(...))` (line 204).  Returns the pending cik10 list
and the items mapping after in-place reconciliation: with `overwrite` every
cik is yielded untouched; otherwise a cik whose artifact exists is skipped
and upserted to `success` with the artifact's on-disk size unless already
recorded as `success`; a cik with no artifact is yielded. -/
def iter_pending_ciks (disk : Disk) (overwrite : Bool) (now : String) :
    List Nat → Items → List String × Items
  | [], items => ([], items)
  | c :: rest, items =>
    let cik10 := zero_pad_cik c
    if overwrite then
      let r := iter_pending_ciks disk overwrite now rest items
      (cik10 :: r.1, r.2)
    else
      match lookupA disk cik10 with
      | some fileContent =>
        let items2 :=
          match lookupA items cik10 with
          | some e =>
            if e.status = "success" then items
            else upsertA items cik10 ⟨"success", now, fileContent.length, none⟩
          | none => upsertA items cik10 ⟨"success", now, fileContent.length, none⟩
        iter_pending_ciks disk overwrite now rest items2
      | none =>
        let r := iter_pending_ciks disk overwrite now rest items
        (cik10 :: r.1, r.2)

/-- Embeds `RunConfig` (lines 33-37); `sleep_secs` is a float in the
source, modelled as a rational. -/
structure RunConfig where
  limit : Option Int
  sleep_secs : ℚ
  overwrite : Bool
  deriving DecidableEq

/-- Per-item environment for one loop iteration: the outcomes of that
item's successive request attempts, and whether `write_bytes_atomic`
raises (`some msg`) or succeeds (`none`). -/
structure ItemEnv where
  attempts : Nat → AttemptResult
  writeFails : Option String

/-- State threaded through the orchestrator's fetch loop: the in-memory
`items` mapping, the artifact area of the disk, the history of ledger
snapshots persisted by `save_state` calls (most recent last), and the
trace of sleeps and request attempts. -/
structure LoopState where
  items : Items
  disk : Disk
  saves : List Items
  trace : List Ev
  deriving DecidableEq

/-- Embeds one iteration of the fetch loop of `fetch_companyfacts`
(lines 215-236): throttle sleep, `request_with_retries`, then
- non-200 status: upsert `http_<status>` with bytes 0, explicit
  `save_state` plus the `finally` save (two snapshots), no artifact;
- 200 and the atomic write succeeds: artifact written, `success` entry
  with the byte count, `finally` save;
- 200 but the write raises, or retries exhausted: `error` entry with the
  exception message, artifact untouched, `finally` save. -/
def fetch_step (run : RunConfig) (now : String) (env : String → ItemEnv)
    (st : LoopState) (cik10 : String) : LoopState :=
  match (request_with_retries (env cik10).attempts).1 with
  | .ok status content =>
    if status ≠ 200 then
      let e : LedgerEntry := ⟨"http_" ++ toString status, now, 0, some ("HTTP " ++ toString status)⟩
      { items := upsertA st.items cik10 e,
        disk := st.disk,
        saves := st.saves ++ [upsertA st.items cik10 e, upsertA st.items cik10 e],
        trace := st.trace ++ Ev.sleep run.sleep_secs :: (request_with_retries (env cik10).attempts).2 }
    else
      match (env cik10).writeFails with
      | none =>
        let e : LedgerEntry := ⟨"success", now, content.length, none⟩
        { items := upsertA st.items cik10 e,
          disk := upsertA st.disk cik10 content,
          saves := st.saves ++ [upsertA st.items cik10 e],
          trace := st.trace ++ Ev.sleep run.sleep_secs :: (request_with_retries (env cik10).attempts).2 }
      | some msg =>
        let e : LedgerEntry := ⟨"error", now, 0, some msg⟩
        { items := upsertA st.items cik10 e,
          disk := st.disk,
          saves := st.saves ++ [upsertA st.items cik10 e],
          trace := st.trace ++ Ev.sleep run.sleep_secs :: (request_with_retries (env cik10).attempts).2 }
  | .exhausted cause =>
    let e : LedgerEntry := ⟨"error", now, 0,
      some ("Failed after " ++ toString MAX_RETRIES ++ " retries: " ++ cause)⟩
    { items := upsertA st.items cik10 e,
      disk := st.disk,
      saves := st.saves ++ [upsertA st.items cik10 e],
      trace := st.trace ++ Ev.sleep run.sleep_secs :: (request_with_retries (env cik10).attempts).2 }

/-- The fetch loop over the pending list (line 215). -/
def fetch_loop (run : RunConfig) (now : String) (env : String → ItemEnv)
    (pending : List String) (st : LoopState) : LoopState :=
  pending.foldl (fetch_step run now env) st

/-- Code-point lexicographic `<=` on characters lists, Python's string
comparison order. -/
def charListLe : List Char → List Char → Bool
  | [], _ => true
  | _ :: _, [] => false
  | a :: as, b :: bs =>
    if a.toNat < b.toNat then true
    else if b.toNat < a.toNat then false
    else charListLe as bs

/-- Python string `<=`. -/
def strLe (a b : String) : Bool :=
  charListLe a.data b.data

/-- The element of `sorted(names)[-1]`: the maximum by Python string
order, taking the later occurrence on ties (stable sort). -/
def latestName : List String → Option String
  | [] => none
  | d :: rest => some (rest.foldl (fun acc p => if strLe acc p then p else acc) d)

/-- The test `p.name.startswith("dt=")` of line 55. -/
def startsWithDt (p : String) : Bool :=
  match p.data with
  | 'd' :: 't' :: '=' :: _ => true
  | _ => false

/-- Embeds `latest_snapshot_file` (lines 48-64) against an abstract view
of the snapshot root: whether it exists, the names of its subdirectories,
and whether `company_tickers.json` exists inside a given `dt=` directory.
The source's `sorted(dt_dirs, key=name)[-1]` is the maximum by name. -/
def latest_snapshot_file (rootExists : Bool) (dtDirs : List String)
    (snapshotFileExists : String → Bool) : Except String String :=
  if !rootExists then .error "Snapshot root not found"
  else
    match latestName (dtDirs.filter startsWithDt) with
    | none => .error "No dt=* snapshots found"
    | some latest =>
      if snapshotFileExists latest then .ok (latest ++ "/company_tickers.json")
      else .error "Snapshot file missing"

/-- Python list slicing `l[:n]` for a possibly negative `n` (line 196). -/
def pySlice (n : Int) (l : List Nat) : List Nat :=
  if 0 ≤ n then l.take n.toNat else l.take (l.length - (-n).toNat)

/-- Abstract view of the world `fetch_companyfacts` runs against:
the snapshot root, the cik universe parsed from the snapshot file
(output of `load_ciks`), the artifact disk, the loaded ledger items,
each item's network/write environment, and the timestamp. -/
structure World where
  rootExists : Bool
  dtDirs : List String
  snapshotFileExists : String → Bool
  ciks : List Nat
  disk : Disk
  items0 : Items
  env : String → ItemEnv
  now : String

/-- Embeds `fetch_companyfacts` (lines 184-236): resolve the snapshot
(pre-flight, may fail), apply the run limit, compute pending work with
reconciliation, persist the reconciled ledger once (line 205), then run
the fetch loop.  Returns the final loop state and the pending list. -/
def fetch_companyfacts (run : RunConfig) (w : World) :
    Except String (LoopState × List String) :=
  match latest_snapshot_file w.rootExists w.dtDirs w.snapshotFileExists with
  | .error e => .error e
  | .ok _ =>
    let ciks := match run.limit with
      | none => w.ciks
      | some n => pySlice n w.ciks
    let pi := iter_pending_ciks w.disk run.overwrite w.now ciks w.items0
    let st0 : LoopState := { items := pi.2, disk := w.disk, saves := [pi.2], trace := [] }
    .ok (fetch_loop run w.now w.env pi.1 st0, pi.1)

/-- CLI tokens of `parse_args` (lines 239-266), with the numeric literal
already parsed (`int(...)` / `float(...)`); an unrecognized token raises
`ValueError("Unknown arg: ...")`. -/
inductive Arg where
  | limit (n : Int)
  | overwrite
  | rps (r : ℚ)
  | unknown (a : String)

/-- Accumulator loop of `parse_args`; later occurrences win. -/
def parseGo : List Arg → Option Int → Bool → ℚ → Except String RunConfig
  | [], lim, ow, r => .ok ⟨lim, 1 / max r (1 / 10), ow⟩
  | .limit n :: rest, _, ow, r => parseGo rest (some n) ow r
  | .overwrite :: rest, lim, _, r => parseGo rest lim true r
  | .rps x :: rest, lim, ow, _ => parseGo rest lim ow x
  | .unknown a :: _, _, _, _ => .error ("Unknown arg: " ++ a)

/-- Embeds `parse_args` (lines 239-266): defaults `limit=None`,
`overwrite=False`, `rps=RPS`; the resulting sleep interval is
`1.0 / max(rps, 0.1)` (line 265). -/
def parse_args (argv : List Arg) : Except String RunConfig :=
  parseGo argv none false RPS

/-- Embeds `main` (lines 269-271): parse the CLI then run the fetch. -/
def main_run (argv : List Arg) (w : World) : Except String (LoopState × List String) :=
  match parse_args argv with
  | .error e => .error e
  | .ok run => fetch_companyfacts run w

/-- Whether an `Except` value is `.ok`. -/
def isOkE {ε α : Type} : Except ε α → Bool
  | .ok _ => true
  | .error _ => false

instance {ε α : Type} [DecidableEq ε] [DecidableEq α] : DecidableEq (Except ε α) := fun a b =>
  match a, b with
  | .ok x, .ok y =>
    if h : x = y then .isTrue (by rw [h]) else .isFalse (fun hc => by cases hc; exact h rfl)
  | .error x, .error y =>
    if h : x = y then .isTrue (by rw [h]) else .isFalse (fun hc => by cases hc; exact h rfl)
  | .ok _, .error _ => .isFalse (fun hc => Except.noConfusion hc)
  | .error _, .ok _ => .isFalse (fun hc => Except.noConfusion hc)

/-! Small-step filesystem model for the two write paths: the one
destination file, plus the temporary file of `write_bytes_atomic`. -/

structure FSState where
  dest : Option (List Nat)
  tmp : Option (List Nat)
  deriving DecidableEq

/-- Primitive file operations performed by `write_bytes_atomic`
(mkstemp / buffered byte writes to the temp file / fsync / atomic
rename over the destination) and by `save_state`'s plain overwrite
(`open(path, "w")` truncates, then bytes are written in place). -/
inductive FileOp where
  | mkstemp
  | writeTmpByte (b : Nat)
  | fsync
  | replace
  | openTrunc
  | writeDestByte (b : Nat)
  deriving DecidableEq

def applyOp (s : FSState) : FileOp → FSState
  | .mkstemp => { s with tmp := some [] }
  | .writeTmpByte b => { s with tmp := s.tmp.map (fun l => l ++ [b]) }
  | .fsync => s
  | .replace => ⟨s.tmp, none⟩
  | .openTrunc => { s with dest := some [] }
  | .writeDestByte b => { s with dest := s.dest.map (fun l => l ++ [b]) }

def runOps (ops : List FileOp) (s : FSState) : FSState :=
  ops.foldl applyOp s

/-- The operation sequence of `write_bytes_atomic` (lines 122-143):
create the temp file, write the content into it, fsync, then atomically
replace the destination. -/
def write_ops (content : List Nat) : List FileOp :=
  (FileOp.mkstemp :: content.map FileOp.writeTmpByte ++ [FileOp.fsync]) ++ [FileOp.replace]

/-- Embeds a completed `write_bytes_atomic` run over a destination whose
prior content is `dest0`: returns `len(content)` (line 143) and the
resulting filesystem state. -/
def write_bytes_atomic (dest0 : Option (List Nat)) (content : List Nat) : Nat × FSState :=
  (content.length, runOps (write_ops content) ⟨dest0, none⟩)

/-- Embeds a `write_bytes_atomic` call that fails at operation index `n`
(only the first `n` operations take effect), after which the `finally`
block (lines 144-150) unlinks the temp file. -/
def write_bytes_atomic_failed (dest0 : Option (List Nat)) (content : List Nat)
    (n : Nat) : FSState :=
  let s := runOps ((write_ops content).take n) ⟨dest0, none⟩
  { s with tmp := none }

/-- The operation sequence of `save_state`'s file write (lines 97-98):
`open(state_path, "w")` truncates the file, then the serialized state
bytes are written directly into it — no temp file, no rename. -/
def save_state_ops (content : List Nat) : List FileOp :=
  FileOp.openTrunc :: content.map FileOp.writeDestByte

/-- State-file content after a completed `save_state` write. -/
def save_state_write (dest0 : Option (List Nat)) (content : List Nat) : FSState :=
  runOps (save_state_ops content) ⟨dest0, none⟩

/-- State-file content when the process is killed after the first `n`
operations of `save_state`'s write (no cleanup runs: the file stays as
the crash left it). -/
def save_state_crashed (dest0 : Option (List Nat)) (content : List Nat)
    (n : Nat) : FSState :=
  runOps ((save_state_ops content).take n) ⟨dest0, none⟩

/-! Retry machinery lemmas. -/

lemma rwrAux_step_retryable (env : Nat → AttemptResult) (a fuel : Nat) (le : Option String)
    (h : isRetryableAttempt (env a) = true) :
    rwrAux env a (fuel + 1) le
      = ((rwrAux env (a + 1) fuel (some (attemptCause (env a)))).1,
         Ev.httpGet :: Ev.sleep (BASE_BACKOFF_SECS * 2 ^ a)
           :: (rwrAux env (a + 1) fuel (some (attemptCause (env a)))).2) := by
  cases he : env a with
  | transportFailure m => simp [rwrAux, he, attemptCause]
  | response s c =>
    simp only [isRetryableAttempt, he] at h
    simp [rwrAux, he, attemptCause, h]

lemma rwrAux_exhausted (env : Nat → AttemptResult) :
    ∀ (fuel a : Nat) (le : Option String),
      (∀ k, k < fuel → isRetryableAttempt (env (a + k)) = true) →
      rwrAux env a fuel le
        = (.exhausted (if fuel = 0 then le.getD "None" else attemptCause (env (a + fuel - 1))),
           ((List.range fuel).map
             (fun k => [Ev.httpGet, Ev.sleep (BASE_BACKOFF_SECS * 2 ^ (a + k))])).flatten) := by
  intro fuel
  induction fuel with
  | zero => intro a le _; simp [rwrAux]
  | succ n ih =>
    intro a le h
    rw [rwrAux_step_retryable env a n le (by simpa using h 0 (Nat.succ_pos n))]
    rw [ih (a + 1) (some (attemptCause (env a))) (fun k hk => by
      have := h (k + 1) (by omega)
      simpa [Nat.add_assoc, Nat.add_comm 1 k] using this)]
    rw [Prod.mk.injEq]
    refine ⟨?_, ?_⟩
    · cases n with
      | zero => simp
      | succ m =>
        simp only [Nat.succ_ne_zero, if_false]
        have hidx : a + 1 + (m + 1) - 1 = a + (m + 1 + 1) - 1 := by omega
        rw [hidx]
    · rw [List.range_succ_eq_map]
      simp [List.map_map, Function.comp_def, Nat.succ_eq_add_one, Nat.add_assoc,
        Nat.add_comm 1]

/-- A first attempt with a non-retryable status returns terminally after
that single attempt: no backoff sleep, no further requests. -/
lemma rwr_terminal (env : Nat → AttemptResult) (s : Nat) (c : List Nat)
    (he : env 0 = .response s c) (hr : retryable s = false) :
    request_with_retries env = (.ok s c, [Ev.httpGet]) := by
  have h5 : MAX_RETRIES = 4 + 1 := rfl
  rw [request_with_retries, h5]
  simp [rwrAux, he, hr]

/-- Claim C2 (confirmed): when every attempt produces a retryable condition
(transport failure or status in {429, 500, 502, 503, 504}),
`request_with_retries` makes exactly MAX_RETRIES request attempts, sleeps
`BASE_BACKOFF_SECS * 2 ^ k` right after attempt k (0-indexed; that is,
before attempt k+1), sleeps `∑ BASE_BACKOFF_SECS * 2 ^ k` in total over
k in 0..MAX_RETRIES-1, and fails carrying the cause of the last attempt. -/
theorem retries_exhausted_after_max (env : Nat → AttemptResult)
    (h : ∀ k, k < MAX_RETRIES → isRetryableAttempt (env k) = true) :
    (request_with_retries env).1 = .exhausted (attemptCause (env (MAX_RETRIES - 1))) ∧
    (request_with_retries env).2 =
      ((List.range MAX_RETRIES).map
        (fun k => [Ev.httpGet, Ev.sleep (BASE_BACKOFF_SECS * 2 ^ k)])).flatten ∧
    numAttempts (request_with_retries env).2 = MAX_RETRIES ∧
    sleepsOf (request_with_retries env).2 =
      (List.range MAX_RETRIES).map (fun k => BASE_BACKOFF_SECS * 2 ^ k) ∧
    totalSlept (request_with_retries env).2 =
      ∑ k in Finset.range MAX_RETRIES, BASE_BACKOFF_SECS * 2 ^ k := by
  have H := rwrAux_exhausted env MAX_RETRIES 0 none (by simpa using h)
  rw [request_with_retries, H]
  have h50 : MAX_RETRIES ≠ 0 := by decide
  refine ⟨by simp [h50], by simp, ?_, ?_, ?_⟩
  · simp [numAttempts, MAX_RETRIES, List.range_succ]
  · simp [sleepsOf, MAX_RETRIES, List.range_succ]
  · simp [totalSlept, sleepsOf, MAX_RETRIES, List.range_succ, Finset.sum_range_succ]
    ring

/-- Witness for C2 at a concrete always-failing environment. -/
theorem retries_exhausted_after_max_witness :
    (request_with_retries (fun _ => .transportFailure "boom")).1 = .exhausted "boom" ∧
    (request_with_retries (fun _ => .transportFailure "boom")).2 =
      ((List.range MAX_RETRIES).map
        (fun k => [Ev.httpGet, Ev.sleep (BASE_BACKOFF_SECS * 2 ^ k)])).flatten ∧
    numAttempts (request_with_retries (fun _ => .transportFailure "boom")).2 = MAX_RETRIES ∧
    sleepsOf (request_with_retries (fun _ => .transportFailure "boom")).2 =
      (List.range MAX_RETRIES).map (fun k => BASE_BACKOFF_SECS * 2 ^ k) ∧
    totalSlept (request_with_retries (fun _ => .transportFailure "boom")).2 =
      ∑ k in Finset.range MAX_RETRIES, BASE_BACKOFF_SECS * 2 ^ k :=
  retries_exhausted_after_max (fun _ => .transportFailure "boom") (by decide)

/-- Claim C1 (counterexample): a 404 response is recorded with ledger
status `"http_404"`, not `"http_error:404"` as the claim states. -/
theorem http404_not_http_error_404 :
    ((lookupA (fetch_step ⟨none, 1 / 2, false⟩ "T"
        (fun _ => ⟨fun _ => .response 404 [], none⟩)
        ⟨[], [], [[]], []⟩ "0000000001").items "0000000001").map
      (fun e => e.status)) = some "http_404" ∧
    "http_404" ≠ "http_error:404" := by
  refine ⟨by decide, by decide⟩

/-- Claim C1 (corrected): a response whose status is neither 200 nor in the
retryable set is returned after exactly one request attempt (no retry, no
backoff sleep, no exception), and the orchestrator records a ledger entry
with status `http_<code>` (so 404 yields `http_404`), bytes 0 and the
message `HTTP <code>`, persists it, and writes no artifact. -/
theorem terminal_http_recorded_once (run : RunConfig) (now : String)
    (env : String → ItemEnv) (st : LoopState) (cik10 : String) (s : Nat) (c : List Nat)
    (he : (env cik10).attempts 0 = .response s c)
    (h200 : s ≠ 200) (hr : retryable s = false) :
    request_with_retries (env cik10).attempts = (.ok s c, [Ev.httpGet]) ∧
    (fetch_step run now env st cik10).items =
      upsertA st.items cik10 ⟨"http_" ++ toString s, now, 0, some ("HTTP " ++ toString s)⟩ ∧
    (fetch_step run now env st cik10).disk = st.disk ∧
    (fetch_step run now env st cik10).saves = st.saves ++
      [upsertA st.items cik10 ⟨"http_" ++ toString s, now, 0, some ("HTTP " ++ toString s)⟩,
       upsertA st.items cik10 ⟨"http_" ++ toString s, now, 0, some ("HTTP " ++ toString s)⟩] ∧
    (fetch_step run now env st cik10).trace =
      st.trace ++ [Ev.sleep run.sleep_secs, Ev.httpGet] := by
  have hreq := rwr_terminal (env cik10).attempts s c he hr
  refine ⟨hreq, ?_, ?_, ?_, ?_⟩ <;> simp [fetch_step, hreq, h200]

/-- Witness for the corrected C1 at a concrete 404 environment. -/
theorem terminal_http_recorded_once_witness :
    request_with_retries ((fun _ : String => ItemEnv.mk (fun _ => .response 404 [7]) none)
        "0000000001").attempts = (.ok 404 [7], [Ev.httpGet]) ∧
    (fetch_step ⟨none, 1 / 2, false⟩ "T"
        (fun _ => ⟨fun _ => .response 404 [7], none⟩) ⟨[], [], [[]], []⟩ "0000000001").items =
      upsertA [] "0000000001" ⟨"http_" ++ toString 404, "T", 0, some ("HTTP " ++ toString 404)⟩ ∧
    (fetch_step ⟨none, 1 / 2, false⟩ "T"
        (fun _ => ⟨fun _ => .response 404 [7], none⟩) ⟨[], [], [[]], []⟩ "0000000001").disk = [] ∧
    (fetch_step ⟨none, 1 / 2, false⟩ "T"
        (fun _ => ⟨fun _ => .response 404 [7], none⟩) ⟨[], [], [[]], []⟩ "0000000001").saves = [[]] ++
      [upsertA [] "0000000001" ⟨"http_" ++ toString 404, "T", 0, some ("HTTP " ++ toString 404)⟩,
       upsertA [] "0000000001" ⟨"http_" ++ toString 404, "T", 0, some ("HTTP " ++ toString 404)⟩] ∧
    (fetch_step ⟨none, 1 / 2, false⟩ "T"
        (fun _ => ⟨fun _ => .response 404 [7], none⟩) ⟨[], [], [[]], []⟩ "0000000001").trace =
      [] ++ [Ev.sleep (⟨none, 1 / 2, false⟩ : RunConfig).sleep_secs, Ev.httpGet] :=
  terminal_http_recorded_once ⟨none, 1 / 2, false⟩ "T"
    (fun _ => ⟨fun _ => .response 404 [7], none⟩) ⟨[], [], [[]], []⟩ "0000000001" 404 [7]
    rfl (by decide) (by decide)

/-! Association-list lemmas. -/

lemma lookupA_upsertA_self {α : Type} (l : List (String × α)) (k : String) (v : α) :
    lookupA (upsertA l k v) k = some v := by
  induction l with
  | nil => simp [upsertA, lookupA]
  | cons p rest ih =>
    by_cases h : p.1 = k
    · simp [upsertA, h, lookupA]
    · simp [upsertA, h, lookupA, ih]

lemma lookupA_upsertA_other {α : Type} (l : List (String × α)) (k key : String) (v : α)
    (hne : k ≠ key) :
    lookupA (upsertA l k v) key = lookupA l key := by
  induction l with
  | nil => simp [upsertA, lookupA, hne]
  | cons p rest ih =>
    by_cases h : p.1 = k
    · simp [upsertA, h, lookupA, hne]
    · simp [upsertA, h, lookupA, ih]

/-! Pending-work lemmas. -/

/-- Every cik10 yielded by a non-overwrite scan has no artifact on disk
and is the canonical form of one of the input ciks. -/
lemma mem_pending_no_artifact (disk : Disk) (now : String) :
    ∀ (ciks : List Nat) (items : Items) (x : String),
      x ∈ (iter_pending_ciks disk false now ciks items).1 →
      lookupA disk x = none ∧ ∃ c, c ∈ ciks ∧ x = zero_pad_cik c := by
  intro ciks
  induction ciks with
  | nil => intro items x hx; simp [iter_pending_ciks] at hx
  | cons c rest ih =>
    intro items x hx
    simp only [iter_pending_ciks, Bool.false_eq_true, if_false] at hx
    cases hfc : lookupA disk (zero_pad_cik c) with
    | some fc =>
      rw [hfc] at hx
      obtain ⟨h1, c', hc', hx'⟩ := ih _ x hx
      exact ⟨h1, c', List.mem_cons_of_mem _ hc', hx'⟩
    | none =>
      rw [hfc] at hx
      simp only [List.mem_cons] at hx
      rcases hx with rfl | hx
      · exact ⟨hfc, c, by simp⟩
      · obtain ⟨h1, c', hc', hx'⟩ := ih _ x hx
        exact ⟨h1, c', List.mem_cons_of_mem _ hc', hx'⟩

/-- A key holding a `success` entry whose artifact exists keeps its entry
untouched through a non-overwrite scan and is never yielded. -/
lemma iter_keeps (disk : Disk) (now : String) (key : String) (content : List Nat)
    (e : LedgerEntry) (hd : lookupA disk key = some content) (hs : e.status = "success") :
    ∀ (ciks : List Nat) (items : Items), lookupA items key = some e →
      lookupA (iter_pending_ciks disk false now ciks items).2 key = some e ∧
      key ∉ (iter_pending_ciks disk false now ciks items).1 := by
  intro ciks
  induction ciks with
  | nil => intro items hit; simpa [iter_pending_ciks] using hit
  | cons c rest ih =>
    intro items hit
    simp only [iter_pending_ciks, Bool.false_eq_true, if_false]
    by_cases hk : zero_pad_cik c = key
    · subst hk
      simp only [hd, hit, hs, if_true]
      exact ih items hit
    · cases hfc : lookupA disk (zero_pad_cik c) with
      | some fc =>
        cases hie : lookupA items (zero_pad_cik c) with
        | some e0 =>
          by_cases hse : e0.status = "success"
          · simp only [hfc, hie, hse, if_true]
            exact ih items hit
          · simp only [hfc, hie, hse, if_false]
            refine ih _ ?_
            rw [lookupA_upsertA_other _ _ _ _ hk]
            exact hit
        | none =>
          simp only [hfc, hie]
          refine ih _ ?_
          rw [lookupA_upsertA_other _ _ _ _ hk]
          exact hit
      | none =>
        simp only [hfc]
        have := ih items hit
        refine ⟨this.1, ?_⟩
        simp only [List.mem_cons]
        rintro (rfl | hmem)
        · exact hk rfl
        · exact this.2 hmem

/-- Claim C3 (confirmed): without overwrite, an identifier whose artifact
exists on disk while the ledger does not record `success` for it is not
yielded for fetching, and its ledger entry is upserted to `success` with
the artifact's on-disk size. -/
theorem reconcile_artifact_marks_success (disk : Disk) (now : String) (content : List Nat) :
    ∀ (ciks : List Nat) (items : Items) (c : Nat), c ∈ ciks →
      lookupA disk (zero_pad_cik c) = some content →
      (lookupA items (zero_pad_cik c)).map (fun e => e.status) ≠ some "success" →
      lookupA (iter_pending_ciks disk false now ciks items).2 (zero_pad_cik c)
        = some ⟨"success", now, content.length, none⟩ ∧
      zero_pad_cik c ∉ (iter_pending_ciks disk false now ciks items).1 := by
  intro ciks
  induction ciks with
  | nil => intro items c hc; exact absurd hc (List.not_mem_nil c)
  | cons d rest ih =>
    intro items c hc hd hns
    simp only [iter_pending_ciks, Bool.false_eq_true, if_false]
    by_cases hk : zero_pad_cik d = zero_pad_cik c
    · rw [hk, hd]
      cases hie : lookupA items (zero_pad_cik c) with
      | some e0 =>
        have hse : e0.status ≠ "success" := by
          intro hcontra
          apply hns
          rw [hie]
          simp [hcontra]
        simp only [hie, hse, if_false]
        exact iter_keeps disk now _ content _ hd rfl rest _ (lookupA_upsertA_self _ _ _)
      | none =>
        simp only [hie]
        exact iter_keeps disk now _ content _ hd rfl rest _ (lookupA_upsertA_self _ _ _)
    · have hcr : c ∈ rest := by
        rcases List.mem_cons.mp hc with rfl | h
        · exact absurd rfl hk
        · exact h
      cases hfc : lookupA disk (zero_pad_cik d) with
      | some fc =>
        cases hie : lookupA items (zero_pad_cik d) with
        | some e0 =>
          by_cases hse : e0.status = "success"
          · simp only [hfc, hie, hse, if_true]
            exact ih items c hcr hd hns
          · simp only [hfc, hie, hse, if_false]
            refine ih _ c hcr hd ?_
            rw [lookupA_upsertA_other _ _ _ _ hk]
            exact hns
        | none =>
          simp only [hfc, hie]
          refine ih _ c hcr hd ?_
          rw [lookupA_upsertA_other _ _ _ _ hk]
          exact hns
      | none =>
        simp only [hfc]
        have := ih items c hcr hd hns
        refine ⟨this.1, ?_⟩
        simp only [List.mem_cons]
        rintro (h | hmem)
        · exact hk h.symm
        · exact this.2 hmem

/-- Witness for C3: one cik whose artifact is on disk and absent from the
ledger is skipped and reconciled to `success` with the artifact's size. -/
theorem reconcile_artifact_marks_success_witness :
    lookupA (iter_pending_ciks [("0000000001", [7, 8])] false "T" [1, 2] []).2
      (zero_pad_cik 1) = some ⟨"success", "T", 2, none⟩ ∧
    zero_pad_cik 1 ∉ (iter_pending_ciks [("0000000001", [7, 8])] false "T" [1, 2] []).1 :=
  reconcile_artifact_marks_success [("0000000001", [7, 8])] "T" [7, 8] [1, 2] [] 1
    (by decide) (by decide) (by decide)

/-- Claim C10 (confirmed): with overwrite set, the scan yields every
identifier of the input, in input order and canonical form, and returns
the items mapping entirely unchanged: no artifact-based reconciliation
happens. -/
theorem overwrite_yields_all_unchanged (disk : Disk) (now : String)
    (ciks : List Nat) (items : Items) :
    iter_pending_ciks disk true now ciks items = (ciks.map zero_pad_cik, items) := by
  induction ciks with
  | nil => simp [iter_pending_ciks]
  | cons c rest ih => simp [iter_pending_ciks, ih]

lemma pySlice_subset (n : Int) (l : List Nat) : ∀ x ∈ pySlice n l, x ∈ l := by
  intro x hx
  unfold pySlice at hx
  split at hx
  · exact List.take_subset _ _ hx
  · exact List.take_subset _ _ hx

/-- Claim C4 (confirmed): without overwrite, an identifier whose artifact
exists on disk is never yielded, whatever the ledger holds; hence when
every cik in scope has its artifact on disk, the run's pending set is
empty and the fetch loop performs no network request and no sleep. -/
theorem idempotent_rerun_no_requests (run : RunConfig) (w : World)
    (st : LoopState) (pending : List String)
    (how : run.overwrite = false)
    (hall : ∀ c, c ∈ w.ciks → (lookupA w.disk (zero_pad_cik c)).isSome = true)
    (hok : fetch_companyfacts run w = .ok (st, pending)) :
    (∀ (ciks : List Nat) (items : Items) (c : Nat),
        (lookupA w.disk (zero_pad_cik c)).isSome = true →
        zero_pad_cik c ∉ (iter_pending_ciks w.disk false w.now ciks items).1) ∧
    pending = [] ∧ st.trace = [] ∧ numAttempts st.trace = 0 := by
  have hexcl : ∀ (ciks : List Nat) (items : Items) (c : Nat),
      (lookupA w.disk (zero_pad_cik c)).isSome = true →
      zero_pad_cik c ∉ (iter_pending_ciks w.disk false w.now ciks items).1 := by
    intro ciks items c hsome hmem
    have := (mem_pending_no_artifact w.disk w.now ciks items _ hmem).1
    rw [this] at hsome
    exact Bool.false_ne_true hsome
  cases hsnap : latest_snapshot_file w.rootExists w.dtDirs w.snapshotFileExists with
  | error e =>
    rw [fetch_companyfacts, hsnap] at hok
    exact absurd hok (by simp)
  | ok p =>
    rw [fetch_companyfacts, hsnap] at hok
    simp only [Except.ok.injEq, Prod.mk.injEq] at hok
    obtain ⟨hst, hpend⟩ := hok
    have hciks : ∀ c, c ∈ (match run.limit with
        | none => w.ciks
        | some n => pySlice n w.ciks) → c ∈ w.ciks := by
      cases run.limit with
      | none => intro c hc; exact hc
      | some n => intro c hc; exact pySlice_subset n w.ciks c hc
    have hnil : pending = [] := by
      rw [← hpend]
      rw [List.eq_nil_iff_forall_not_mem]
      intro x hx
      rw [how] at hx
      obtain ⟨hnone, c, hc, rfl⟩ := mem_pending_no_artifact w.disk w.now _ _ x hx
      have := hall c (hciks c hc)
      rw [hnone] at this
      exact Bool.false_ne_true this
    refine ⟨hexcl, hnil, ?_, ?_⟩
    · rw [← hst, hpend, hnil]
      rfl
    · rw [← hst, hpend, hnil]
      rfl

/-- Witness for C4: a world whose single cik already has its artifact on
disk yields an empty pending set and an empty event trace. -/
theorem idempotent_rerun_no_requests_witness :
    (∀ (ciks : List Nat) (items : Items) (c : Nat),
        (lookupA [("0000000001", [7])] (zero_pad_cik c)).isSome = true →
        zero_pad_cik c ∉ (iter_pending_ciks [("0000000001", [7])] false "T" ciks items).1) ∧
    ([] : List String) = [] ∧
    (LoopState.mk [("0000000001", ⟨"success", "T", 1, none⟩)] [("0000000001", [7])]
      [[("0000000001", ⟨"success", "T", 1, none⟩)]] []).trace = [] ∧
    numAttempts (LoopState.mk [("0000000001", ⟨"success", "T", 1, none⟩)] [("0000000001", [7])]
      [[("0000000001", ⟨"success", "T", 1, none⟩)]] []).trace = 0 :=
  idempotent_rerun_no_requests ⟨none, 1 / 2, false⟩
    ⟨true, ["dt=2024-01-01"], fun _ => true, [1], [("0000000001", [7])], [],
      fun _ => ⟨fun _ => .response 200 [], none⟩, "T"⟩
    (LoopState.mk [("0000000001", ⟨"success", "T", 1, none⟩)] [("0000000001", [7])]
      [[("0000000001", ⟨"success", "T", 1, none⟩)]] []) []
    rfl (by decide) (by decide)

/-! Filesystem small-step lemmas. -/

lemma runOps_append (l1 l2 : List FileOp) (s : FSState) :
    runOps (l1 ++ l2) s = runOps l2 (runOps l1 s) :=
  List.foldl_append _ _ _ _

lemma runOps_tmpWrites (c : List Nat) : ∀ (d : Option (List Nat)) (acc : List Nat),
    runOps (c.map FileOp.writeTmpByte) ⟨d, some acc⟩ = ⟨d, some (acc ++ c)⟩ := by
  induction c with
  | nil => intro d acc; simp [runOps]
  | cons b rest ih =>
    intro d acc
    have step : runOps ((b :: rest).map FileOp.writeTmpByte) ⟨d, some acc⟩
        = runOps (rest.map FileOp.writeTmpByte) ⟨d, some (acc ++ [b])⟩ := rfl
    rw [step, ih]
    simp

/-- Operations other than the rename (and the destination writes of
`save_state`) never touch the destination file. -/
lemma runOps_pre_dest (ops : List FileOp)
    (h : ∀ op ∈ ops, op = FileOp.mkstemp ∨ (∃ b, op = FileOp.writeTmpByte b) ∨ op = FileOp.fsync) :
    ∀ s : FSState, (runOps ops s).dest = s.dest := by
  induction ops with
  | nil => intro s; rfl
  | cons op rest ih =>
    intro s
    have hop := h op (List.mem_cons_self op rest)
    have hrest := fun o ho => h o (List.mem_cons_of_mem op ho)
    have hstep : (applyOp s op).dest = s.dest := by
      rcases hop with rfl | ⟨b, rfl⟩ | rfl <;> rfl
    calc (runOps (op :: rest) s).dest = (runOps rest (applyOp s op)).dest := rfl
      _ = (applyOp s op).dest := ih hrest _
      _ = s.dest := hstep

lemma write_ops_success (dest0 : Option (List Nat)) (content : List Nat) :
    runOps (write_ops content) ⟨dest0, none⟩ = ⟨some content, none⟩ := by
  rw [write_ops, runOps_append]
  have h1 : runOps (FileOp.mkstemp :: content.map FileOp.writeTmpByte ++ [FileOp.fsync])
      ⟨dest0, none⟩ = ⟨dest0, some content⟩ := by
    have h2 : runOps (content.map FileOp.writeTmpByte ++ [FileOp.fsync]) ⟨dest0, some []⟩
        = ⟨dest0, some content⟩ := by
      rw [runOps_append, runOps_tmpWrites]
      rfl
    calc runOps (FileOp.mkstemp :: content.map FileOp.writeTmpByte ++ [FileOp.fsync]) ⟨dest0, none⟩
        = runOps (content.map FileOp.writeTmpByte ++ [FileOp.fsync]) ⟨dest0, some []⟩ := rfl
      _ = ⟨dest0, some content⟩ := h2
  rw [h1]
  rfl

/-- Claim C5 (confirmed): a completed `write_bytes_atomic` returns exactly
`content.length` with the destination holding exactly the new content and
the temp file gone; a call failing at any operation leaves the destination
with its prior content and the temp file removed; and at every intermediate
point a reader of the destination sees either the full old content or the
full new content, never a mixture. -/
theorem write_bytes_atomic_all_or_nothing (dest0 : Option (List Nat)) (content : List Nat) :
    write_bytes_atomic dest0 content = (content.length, ⟨some content, none⟩) ∧
    (∀ n, n < (write_ops content).length →
      write_bytes_atomic_failed dest0 content n = ⟨dest0, none⟩) ∧
    (∀ n, (runOps ((write_ops content).take n) ⟨dest0, none⟩).dest = dest0 ∨
          (runOps ((write_ops content).take n) ⟨dest0, none⟩).dest = some content) := by
  have hlen1 : (write_ops content).length
      = (FileOp.mkstemp :: content.map FileOp.writeTmpByte ++ [FileOp.fsync]).length + 1 := by
    rw [write_ops, List.length_append]
    rfl
  have hpre : ∀ n, n ≤ (FileOp.mkstemp :: content.map FileOp.writeTmpByte ++ [FileOp.fsync]).length →
      (runOps ((write_ops content).take n) ⟨dest0, none⟩).dest = dest0 := by
    intro n hn
    rw [write_ops, List.take_append_of_le_length hn]
    refine runOps_pre_dest _ ?_ _
    intro op hmem
    have hm := List.mem_of_mem_take hmem
    rcases List.mem_cons.mp hm with rfl | hm2
    · exact Or.inl rfl
    rcases List.mem_append.mp hm2 with hmap | hfs
    · obtain ⟨b, _, hb⟩ := List.mem_map.mp hmap
      exact Or.inr (Or.inl ⟨b, hb.symm⟩)
    · exact Or.inr (Or.inr (List.mem_singleton.mp hfs))
  refine ⟨?_, ?_, ?_⟩
  · rw [write_bytes_atomic, write_ops_success]
  · intro n hn
    rw [write_bytes_atomic_failed]
    have hn' : n ≤ (FileOp.mkstemp :: content.map FileOp.writeTmpByte ++ [FileOp.fsync]).length := by
      omega
    have hd := hpre n hn'
    cases hrun : runOps ((write_ops content).take n) ⟨dest0, none⟩ with
    | mk d t =>
      rw [hrun] at hd
      simp only at hd
      simp [hd]
  · intro n
    by_cases hn : n ≤ (FileOp.mkstemp :: content.map FileOp.writeTmpByte ++ [FileOp.fsync]).length
    · exact Or.inl (hpre n hn)
    · have hlen : (write_ops content).length ≤ n := by omega
      rw [List.take_of_length_le hlen, write_ops_success]
      exact Or.inr rfl

/-- Witness for C5: concrete success, a failure mid-write, and the
intermediate view after three operations. -/
theorem write_bytes_atomic_all_or_nothing_witness :
    write_bytes_atomic (some [1, 2]) [3, 4, 5] = (3, ⟨some [3, 4, 5], none⟩) ∧
    write_bytes_atomic_failed (some [1, 2]) [3, 4, 5] 3 = ⟨some [1, 2], none⟩ ∧
    ((runOps ((write_ops [3, 4, 5]).take 3) ⟨some [1, 2], none⟩).dest = some [1, 2] ∨
     (runOps ((write_ops [3, 4, 5]).take 3) ⟨some [1, 2], none⟩).dest = some [3, 4, 5]) := by
  have H := write_bytes_atomic_all_or_nothing (some [1, 2]) [3, 4, 5]
  exact ⟨H.1, H.2.1 3 (by decide), H.2.2 3⟩

/-- Claim C6 (code_bug): `save_state` writes the ledger file by a plain
truncate-then-write (lines 97-98), not through `write_bytes_atomic`; a
process killed after the first content byte leaves the file holding `[3]`,
which is neither the complete previous content `[1, 2]` nor the complete
new content `[3, 4]` — a torn state the spec's design forbids. -/
theorem save_state_torn_write :
    (save_state_crashed (some [1, 2]) [3, 4] 2).dest = some [3] ∧
    (some [3] : Option (List Nat)) ≠ some [1, 2] ∧
    (some [3] : Option (List Nat)) ≠ some [3, 4] ∧
    save_state_write (some [1, 2]) [3, 4] = ⟨some [3, 4], none⟩ := by
  refine ⟨by decide, by decide, by decide, by decide⟩

/-! Orchestrator-loop lemmas. -/

/-- The statuses an entry written by the fetch loop can carry:
`success`, `error`, or `http_<code>` for a terminal non-200 code. -/
def okStatus (e : LedgerEntry) : Prop :=
  e.status = "success" ∨ e.status = "error" ∨ ∃ s, s ≠ 200 ∧ e.status = "http_" ++ toString s

/-- Every branch of one loop iteration upserts exactly one entry of the
taxonomy for the processed cik, appends it to the persisted history (twice
on the terminal-HTTP path), and prefixes the item's events with the
throttle sleep. -/
lemma fetch_step_shape (run : RunConfig) (now : String) (env : String → ItemEnv)
    (st : LoopState) (cik10 : String) :
    ∃ e : LedgerEntry, okStatus e ∧
      (fetch_step run now env st cik10).items = upsertA st.items cik10 e ∧
      ((fetch_step run now env st cik10).saves = st.saves ++ [upsertA st.items cik10 e] ∨
       (fetch_step run now env st cik10).saves
         = st.saves ++ [upsertA st.items cik10 e, upsertA st.items cik10 e]) ∧
      (fetch_step run now env st cik10).trace
        = st.trace ++ Ev.sleep run.sleep_secs :: (request_with_retries (env cik10).attempts).2 := by
  cases h : (request_with_retries (env cik10).attempts).1 with
  | ok s c =>
    by_cases h200 : s ≠ 200
    · refine ⟨⟨"http_" ++ toString s, now, 0, some ("HTTP " ++ toString s)⟩,
        Or.inr (Or.inr ⟨s, h200, rfl⟩), ?_, Or.inr ?_, ?_⟩ <;>
        simp [fetch_step, h, h200]
    · cases hw : (env cik10).writeFails with
      | none =>
        refine ⟨⟨"success", now, c.length, none⟩, Or.inl rfl, ?_, Or.inl ?_, ?_⟩ <;>
          simp [fetch_step, h, h200, hw]
      | some msg =>
        refine ⟨⟨"error", now, 0, some msg⟩, Or.inr (Or.inl rfl), ?_, Or.inl ?_, ?_⟩ <;>
          simp [fetch_step, h, h200, hw]
  | exhausted cause =>
    refine ⟨⟨"error", now, 0,
        some ("Failed after " ++ toString MAX_RETRIES ++ " retries: " ++ cause)⟩,
      Or.inr (Or.inl rfl), ?_, Or.inl ?_, ?_⟩ <;> simp [fetch_step, h]

lemma fetch_step_keeps_ok (run : RunConfig) (now : String) (env : String → ItemEnv)
    (st : LoopState) (y x : String) (e : LedgerEntry)
    (hx : lookupA st.items x = some e) (he : okStatus e) :
    ∃ e2, lookupA (fetch_step run now env st y).items x = some e2 ∧ okStatus e2 := by
  obtain ⟨u, hu, hitems, -, -⟩ := fetch_step_shape run now env st y
  rw [hitems]
  by_cases hxy : y = x
  · subst hxy
    exact ⟨u, lookupA_upsertA_self _ _ _, hu⟩
  · rw [lookupA_upsertA_other _ _ _ _ hxy]
    exact ⟨e, hx, he⟩

lemma fetch_loop_keeps_ok (run : RunConfig) (now : String) (env : String → ItemEnv) :
    ∀ (pending : List String) (st : LoopState) (x : String) (e : LedgerEntry),
      lookupA st.items x = some e → okStatus e →
      ∃ e2, lookupA (fetch_loop run now env pending st).items x = some e2 ∧ okStatus e2 := by
  intro pending
  induction pending with
  | nil => intro st x e hx he; exact ⟨e, hx, he⟩
  | cons c rest ih =>
    intro st x e hx he
    obtain ⟨e2, hx2, he2⟩ := fetch_step_keeps_ok run now env st c x e hx he
    exact ih (fetch_step run now env st c) x e2 hx2 he2

/-- Every processed pending item ends the loop with a recorded entry. -/
lemma fetch_loop_records (run : RunConfig) (now : String) (env : String → ItemEnv) :
    ∀ (pending : List String) (st : LoopState) (x : String), x ∈ pending →
      ∃ e, lookupA (fetch_loop run now env pending st).items x = some e ∧ okStatus e := by
  intro pending
  induction pending with
  | nil => intro st x hx; exact absurd hx (List.not_mem_nil x)
  | cons c rest ih =>
    intro st x hx
    rcases List.mem_cons.mp hx with rfl | hx2
    · obtain ⟨u, hu, hitems, -, -⟩ := fetch_step_shape run now env st x
      refine fetch_loop_keeps_ok run now env rest _ x u ?_ hu
      rw [hitems]
      exact lookupA_upsertA_self _ _ _
    · exact ih _ x hx2

lemma fetch_loop_extends_saves (run : RunConfig) (now : String) (env : String → ItemEnv) :
    ∀ (q : List String) (st : LoopState),
      ∃ t, (fetch_loop run now env q st).saves = st.saves ++ t := by
  intro q
  induction q with
  | nil => intro st; exact ⟨[], by simp [fetch_loop]⟩
  | cons c rest ih =>
    intro st
    obtain ⟨u, -, -, hsaves, -⟩ := fetch_step_shape run now env st c
    obtain ⟨t2, ht2⟩ := ih (fetch_step run now env st c)
    have hstep : fetch_loop run now env (c :: rest) st
        = fetch_loop run now env rest (fetch_step run now env st c) := rfl
    rcases hsaves with h1 | h1
    · exact ⟨[upsertA st.items c u] ++ t2, by rw [hstep, ht2, h1, List.append_assoc]⟩
    · exact ⟨[upsertA st.items c u, upsertA st.items c u] ++ t2, by
        rw [hstep, ht2, h1, List.append_assoc]⟩

lemma fetch_step_last_save (run : RunConfig) (now : String) (env : String → ItemEnv)
    (st : LoopState) (c : String) :
    (fetch_step run now env st c).saves.getLast? = some (fetch_step run now env st c).items := by
  obtain ⟨u, -, hitems, hsaves, -⟩ := fetch_step_shape run now env st c
  rw [hitems]
  rcases hsaves with h1 | h1 <;> rw [h1, List.getLast?_append_cons] <;> rfl

lemma fetch_loop_last_save (run : RunConfig) (now : String) (env : String → ItemEnv) :
    ∀ (p : List String) (st : LoopState), p ≠ [] →
      (fetch_loop run now env p st).saves.getLast? = some (fetch_loop run now env p st).items := by
  intro p
  induction p using List.reverseRecOn with
  | nil => intro st h; exact absurd rfl h
  | append_singleton l c ih =>
    intro st _
    have hsplit : fetch_loop run now env (l ++ [c]) st
        = fetch_step run now env (fetch_loop run now env l st) c := by
      rw [fetch_loop, List.foldl_append]
      rfl
    rw [hsplit]
    exact fetch_step_last_save run now env _ c

/-- Claim C7 (confirmed): every loop iteration — success, terminal HTTP
error and per-item exception alike — appends at least one ledger snapshot
to the persisted history, ending with the in-memory ledger that includes
that item's outcome; the history after a prefix of items is a prefix of
the final history, so after each iteration the persisted ledger holds the
outcome of every item processed so far and a kill loses at most the
in-flight item. -/
theorem ledger_persisted_every_item (run : RunConfig) (now : String) (env : String → ItemEnv) :
    (∀ (st : LoopState) (cik10 : String),
       ∃ t, t ≠ [] ∧ (fetch_step run now env st cik10).saves = st.saves ++ t ∧
         (fetch_step run now env st cik10).saves.getLast?
           = some (fetch_step run now env st cik10).items) ∧
    (∀ (p q : List String) (st : LoopState),
       ∃ t, (fetch_loop run now env (p ++ q) st).saves = (fetch_loop run now env p st).saves ++ t) ∧
    (∀ (p : List String) (st : LoopState), p ≠ [] →
       (fetch_loop run now env p st).saves.getLast? = some (fetch_loop run now env p st).items) := by
  refine ⟨?_, ?_, fetch_loop_last_save run now env⟩
  · intro st c
    obtain ⟨u, -, -, hsaves, -⟩ := fetch_step_shape run now env st c
    rcases hsaves with h1 | h1
    · exact ⟨[upsertA st.items c u], by simp, h1, fetch_step_last_save run now env st c⟩
    · exact ⟨[upsertA st.items c u, upsertA st.items c u], by simp, h1,
        fetch_step_last_save run now env st c⟩
  · intro p q st
    have hq : fetch_loop run now env (p ++ q) st
        = fetch_loop run now env q (fetch_loop run now env p st) := by
      rw [fetch_loop, List.foldl_append]
      rfl
    rw [hq]
    exact fetch_loop_extends_saves run now env q _

/-- Witness for C7 at a one-item loop over a 404 environment. -/
theorem ledger_persisted_every_item_witness :
    (∃ t, t ≠ [] ∧ (fetch_step ⟨none, 1 / 2, false⟩ "T"
        (fun _ => ⟨fun _ => .response 404 [], none⟩) ⟨[], [], [[]], []⟩ "0000000001").saves
          = ([[]] : List Items) ++ t ∧
      (fetch_step ⟨none, 1 / 2, false⟩ "T"
        (fun _ => ⟨fun _ => .response 404 [], none⟩) ⟨[], [], [[]], []⟩ "0000000001").saves.getLast?
          = some (fetch_step ⟨none, 1 / 2, false⟩ "T"
              (fun _ => ⟨fun _ => .response 404 [], none⟩) ⟨[], [], [[]], []⟩ "0000000001").items) ∧
    (fetch_loop ⟨none, 1 / 2, false⟩ "T" (fun _ => ⟨fun _ => .response 404 [], none⟩)
        ["0000000001"] ⟨[], [], [[]], []⟩).saves.getLast?
      = some (fetch_loop ⟨none, 1 / 2, false⟩ "T" (fun _ => ⟨fun _ => .response 404 [], none⟩)
          ["0000000001"] ⟨[], [], [[]], []⟩).items := by
  have H := ledger_persisted_every_item ⟨none, 1 / 2, false⟩ "T"
    (fun _ => ⟨fun _ => .response 404 [], none⟩)
  exact ⟨H.1 ⟨[], [], [[]], []⟩ "0000000001",
    H.2.2 ["0000000001"] ⟨[], [], [[]], []⟩ (by simp)⟩

/-- Claim C9 (confirmed): whenever the run gets past pre-flight, it
returns normally with every pending item's outcome recorded in the ledger
under the status taxonomy (an individual item can never abort the run),
and the whole run fails exactly when the CLI is malformed or snapshot
resolution fails. -/
theorem per_item_failures_never_abort :
    (∀ (run : RunConfig) (w : World) (st : LoopState) (pending : List String),
        fetch_companyfacts run w = .ok (st, pending) →
        ∀ x ∈ pending, ∃ e, lookupA st.items x = some e ∧ okStatus e) ∧
    (∀ (argv : List Arg) (w : World),
        isOkE (main_run argv w) = true ↔
          (isOkE (parse_args argv) = true ∧
           isOkE (latest_snapshot_file w.rootExists w.dtDirs w.snapshotFileExists) = true)) := by
  constructor
  · intro run w st pending hok x hx
    cases hsnap : latest_snapshot_file w.rootExists w.dtDirs w.snapshotFileExists with
    | error e =>
      rw [fetch_companyfacts, hsnap] at hok
      exact absurd hok (by simp)
    | ok p =>
      rw [fetch_companyfacts, hsnap] at hok
      simp only [Except.ok.injEq, Prod.mk.injEq] at hok
      obtain ⟨hst, hpend⟩ := hok
      rw [← hst]
      apply fetch_loop_records run w.now w.env
      rw [hpend]
      exact hx
  · intro argv w
    cases hp : parse_args argv with
    | error e => simp [main_run, hp, isOkE]
    | ok run =>
      cases hs : latest_snapshot_file w.rootExists w.dtDirs w.snapshotFileExists with
      | error e => simp [main_run, fetch_companyfacts, hp, hs, isOkE]
      | ok p => simp [main_run, fetch_companyfacts, hp, hs, isOkE]

/-- Witness for C9: a run over one pending item whose endpoint returns
404 terminates normally with the outcome recorded. -/
theorem per_item_failures_never_abort_witness :
    (∃ e, lookupA (fetch_loop ⟨none, 1 / 2, false⟩ "T"
        (fun _ => ⟨fun _ => .response 404 [], none⟩) ["0000000001"]
        ⟨[], [], [[]], []⟩).items "0000000001" = some e ∧ okStatus e) ∧
    isOkE (main_run []
      ⟨true, ["dt=2024-01-01"], fun _ => true, [1], [], [],
        fun _ => ⟨fun _ => .response 404 [], none⟩, "T"⟩) = true := by
  constructor
  · exact per_item_failures_never_abort.1 ⟨none, 1 / 2, false⟩
      ⟨true, ["dt=2024-01-01"], fun _ => true, [1], [], [],
        fun _ => ⟨fun _ => .response 404 [], none⟩, "T"⟩
      (fetch_loop ⟨none, 1 / 2, false⟩ "T"
        (fun _ => ⟨fun _ => .response 404 [], none⟩) ["0000000001"] ⟨[], [], [[]], []⟩)
      ["0000000001"] rfl "0000000001" (by simp)
  · exact (per_item_failures_never_abort.2 []
      ⟨true, ["dt=2024-01-01"], fun _ => true, [1], [], [],
        fun _ => ⟨fun _ => .response 404 [], none⟩, "T"⟩).mpr ⟨rfl, by decide⟩

/-- Claim C8 (counterexample): rps = 100 is accepted by configuration
parsing, and the resulting inter-request sleep interval is 1/100 s, well
below the 0.1 s floor the claim asserts: `1.0 / max(rps, 0.1)` clamps the
rate from below, not the interval. -/
theorem rps_clamp_counterexample :
    ∃ cfg, parse_args [Arg.rps 100] = Except.ok cfg ∧ cfg.sleep_secs < 1 / 10 := by
  refine ⟨_, rfl, ?_⟩
  show (1 : ℚ) / max 100 (1 / 10) < 1 / 10
  rw [max_eq_left (by norm_num)]
  norm_num

lemma parseGo_sleep_form :
    ∀ (argv : List Arg) (lim : Option Int) (ow : Bool) (r : ℚ) (cfg : RunConfig),
      parseGo argv lim ow r = .ok cfg → ∃ x : ℚ, cfg.sleep_secs = 1 / max x (1 / 10) := by
  intro argv
  induction argv with
  | nil =>
    intro lim ow r cfg h
    refine ⟨r, ?_⟩
    simp only [parseGo, Except.ok.injEq] at h
    rw [← h]
  | cons a rest ih =>
    intro lim ow r cfg h
    cases a with
    | limit n => exact ih (some n) ow r cfg h
    | overwrite => exact ih lim true r cfg h
    | rps x => exact ih lim ow x cfg h
    | unknown s => exact absurd h (by simp [parseGo])

/-- Claim C8 (amended): every accepted configuration has sleep interval
`1.0 / max(rps, 0.1)`, which is positive and at most 10 seconds (the rps
value, not the interval, is clamped to a 0.1 floor), and the orchestrator
sleeps exactly that interval before each item's outbound request(s). -/
theorem sleep_interval_clamped_amended :
    (∀ (argv : List Arg) (cfg : RunConfig), parse_args argv = .ok cfg →
       (∃ r : ℚ, cfg.sleep_secs = 1 / max r (1 / 10)) ∧
       0 < cfg.sleep_secs ∧ cfg.sleep_secs ≤ 10) ∧
    (∀ (run : RunConfig) (now : String) (env : String → ItemEnv)
        (st : LoopState) (cik10 : String),
       ∃ evs, (fetch_step run now env st cik10).trace
         = st.trace ++ Ev.sleep run.sleep_secs :: evs) := by
  constructor
  · intro argv cfg h
    obtain ⟨r, hr⟩ := parseGo_sleep_form argv none false RPS cfg h
    have hmax : (0 : ℚ) < max r (1 / 10) :=
      lt_of_lt_of_le (by norm_num) (le_max_right r (1 / 10))
    refine ⟨⟨r, hr⟩, ?_, ?_⟩
    · rw [hr]
      exact div_pos one_pos hmax
    · rw [hr]
      have h1 : (1 : ℚ) / 10 ≤ max r (1 / 10) := le_max_right r (1 / 10)
      have h2 := one_div_le_one_div_of_le (by norm_num : (0 : ℚ) < 1 / 10) h1
      calc (1 : ℚ) / max r (1 / 10) ≤ 1 / (1 / 10) := h2
        _ = 10 := by norm_num
  · intro run now env st cik10
    obtain ⟨u, -, -, -, htrace⟩ := fetch_step_shape run now env st cik10
    exact ⟨_, htrace⟩

/-- Witness for the amended C8 at the default configuration. -/
theorem sleep_interval_clamped_amended_witness :
    ((∃ r : ℚ, (1 : ℚ) / max RPS (1 / 10) = 1 / max r (1 / 10)) ∧
      0 < (1 : ℚ) / max RPS (1 / 10) ∧ (1 : ℚ) / max RPS (1 / 10) ≤ 10) ∧
    (∃ evs, (fetch_step ⟨none, 1 / 2, false⟩ "T"
        (fun _ => ⟨fun _ => .response 404 [], none⟩) ⟨[], [], [[]], []⟩ "0000000001").trace
      = ([] : List Ev) ++ Ev.sleep ((⟨none, 1 / 2, false⟩ : RunConfig).sleep_secs) :: evs) := by
  constructor
  · exact sleep_interval_clamped_amended.1 [] ⟨none, 1 / max RPS (1 / 10), false⟩ rfl
  · exact sleep_interval_clamped_amended.2 ⟨none, 1 / 2, false⟩ "T"
      (fun _ => ⟨fun _ => .response 404 [], none⟩) ⟨[], [], [[]], []⟩ "0000000001"

end Edgar
